import Mathlib

/-!
Verification development for the cross-process coordination core of the
PRISM agent tooling repository: the file-based sliding-window rate limiter
(`tools/rate_limiter.py`) and the persistent disk-cache decorator
(`tools/utils.py`).

Numbers that the Python code manipulates as floats (timestamps, windows,
TTLs) are modelled as rationals; machine integers as `Int`/`Nat`.
Fallible effects (filesystem errors, store errors) are modelled by
explicit outcome oracles, and stateful code by explicit state passing.
-/

namespace RateLimiter

/--
One acquisition on the in-window request log, mirroring the critical
section of `FileBasedRateLimiter._acquire_sync` (rate_limiter.py):

1. prune entries with `now - t < time_window` failing,
2. if the pruned count is `>= max_requests`, compute
   `wait = time_window - (now - oldest)`; if positive, sleep and re-read
   the clock (the re-read clock is `now + wait + slack`, where
   `slack ≥ 0` models that `time.sleep(wait)` sleeps at least `wait`),
   then re-prune,
3. append the final clock reading.

Returns the new log together with the final clock reading (the `now`
recorded for this acquisition, which is the appended timestamp).
-/
def acquireStep (maxRequests : ℕ) (timeWindow : ℚ) (reqs : List ℚ)
    (now slack : ℚ) : List ℚ × ℚ :=
  let pruned := reqs.filter (fun t => now - t < timeWindow)
  if maxRequests ≤ pruned.length then
    let oldest := pruned.headD 0
    let wait := timeWindow - (now - oldest)
    if 0 < wait then
      let now2 := now + wait + slack
      let pruned2 := pruned.filter (fun t => now2 - t < timeWindow)
      (pruned2 ++ [now2], now2)
    else
      (pruned ++ [now], now)
  else
    (pruned ++ [now], now)

/--
A run of acquisitions against one limiter state file, starting from log
`s.1` at clock `s.2`.  Each step supplies the elapsed time `d` since the
previous acquisition finished and the sleep slack `sl`; the clock is
monotonic when all `d` are nonnegative.  Both `acquire` (async) and
`acquire_sync` execute this same state mutation.
-/
def acquireRun (maxRequests : ℕ) (timeWindow : ℚ) :
    List ℚ × ℚ → List (ℚ × ℚ) → List ℚ × ℚ
  | s, [] => s
  | s, (d, sl) :: rest =>
      let r := acquireStep maxRequests timeWindow s.1 (s.2 + d) sl
      acquireRun maxRequests timeWindow r rest

lemma acquireStep_length_le (maxRequests : ℕ) (timeWindow : ℚ)
    (reqs : List ℚ) (now slack : ℚ) (hN : 0 < maxRequests) (hs : 0 ≤ slack)
    (h : reqs.length ≤ maxRequests) :
    (acquireStep maxRequests timeWindow reqs now slack).1.length ≤ maxRequests := by
  unfold acquireStep
  set pruned := reqs.filter (fun t => now - t < timeWindow) with hpruned
  have hple : pruned.length ≤ reqs.length := List.length_filter_le _ _
  by_cases hfull : maxRequests ≤ pruned.length
  · -- the log is full: the head survives pruning, so the wait is positive
    have hlen : pruned.length = maxRequests := le_antisymm (hple.trans h) hfull
    have hne : pruned ≠ [] := by
      intro hnil
      rw [hnil] at hlen
      simp at hlen
      omega
    obtain ⟨a, tl, hcons⟩ := List.exists_cons_of_ne_nil hne
    have hheadD : pruned.headD 0 = a := by rw [hcons]; rfl
    have hamem : a ∈ pruned := by rw [hcons]; exact List.mem_cons_self a tl
    have hain : now - a < timeWindow := by
      have := List.of_mem_filter hamem
      exact of_decide_eq_true this
    have hwait : 0 < timeWindow - (now - a) := by linarith
    rw [if_pos hfull, hheadD, if_pos hwait]
    -- after the sleep, the old head falls outside the window and is pruned
    have hdrop : (pruned.filter
        (fun t => now + (timeWindow - (now - a)) + slack - t < timeWindow)).length
        ≤ tl.length := by
      rw [hcons]
      have hfa : (decide (now + (timeWindow - (now - a)) + slack - a < timeWindow))
          = false := by
        simp only [decide_eq_false_iff_not, not_lt]
        linarith
      simp only [List.filter_cons, hfa]
      exact List.length_filter_le _ _
    have htl : tl.length + 1 = maxRequests := by
      have := hlen
      rw [hcons] at this
      simpa using this
    simp only [List.length_append, List.length_cons, List.length_nil]
    omega
  · rw [if_neg hfull]
    simp only [List.length_append, List.length_cons, List.length_nil]
    omega

lemma acquireStep_mem_le (maxRequests : ℕ) (timeWindow : ℚ)
    (reqs : List ℚ) (now slack : ℚ) (hs : 0 ≤ slack)
    (hreqs : ∀ t ∈ reqs, t ≤ now) :
    ∀ t ∈ (acquireStep maxRequests timeWindow reqs now slack).1,
      t ≤ (acquireStep maxRequests timeWindow reqs now slack).2 := by
  unfold acquireStep
  dsimp only
  set pruned := reqs.filter (fun t => now - t < timeWindow) with hpruned
  have hmem : ∀ t ∈ pruned, t ≤ now := by
    intro t ht
    exact hreqs t (List.mem_of_mem_filter ht)
  by_cases hfull : maxRequests ≤ pruned.length
  · rw [if_pos hfull]
    by_cases hwait : 0 < timeWindow - (now - pruned.headD 0)
    · rw [if_pos hwait]
      dsimp only
      intro t ht
      simp only [List.mem_append, List.mem_singleton] at ht
      rcases ht with ht | ht
      · have := hmem t (List.mem_of_mem_filter ht)
        linarith
      · rw [ht]
    · rw [if_neg hwait]
      intro t ht
      simp only [List.mem_append, List.mem_singleton] at ht
      rcases ht with ht | ht
      · exact hmem t ht
      · rw [ht]
  · rw [if_neg hfull]
    intro t ht
    simp only [List.mem_append, List.mem_singleton] at ht
    rcases ht with ht | ht
    · exact hmem t ht
    · rw [ht]

lemma acquireStep_window (maxRequests : ℕ) (timeWindow : ℚ)
    (reqs : List ℚ) (now slack : ℚ) (hW : 0 < timeWindow) :
    ∀ t ∈ (acquireStep maxRequests timeWindow reqs now slack).1,
      (acquireStep maxRequests timeWindow reqs now slack).2 - t < timeWindow := by
  unfold acquireStep
  dsimp only
  set pruned := reqs.filter (fun t => now - t < timeWindow) with hpruned
  have hmem : ∀ t ∈ pruned, now - t < timeWindow := by
    intro t ht
    rw [hpruned] at ht
    exact of_decide_eq_true (List.mem_filter.mp ht).2
  by_cases hfull : maxRequests ≤ pruned.length
  · rw [if_pos hfull]
    by_cases hwait : 0 < timeWindow - (now - pruned.headD 0)
    · rw [if_pos hwait]
      dsimp only
      intro t ht
      simp only [List.mem_append, List.mem_singleton] at ht
      rcases ht with ht | ht
      · exact of_decide_eq_true (List.mem_filter.mp ht).2
      · rw [ht]; linarith
    · rw [if_neg hwait]
      intro t ht
      simp only [List.mem_append, List.mem_singleton] at ht
      rcases ht with ht | ht
      · exact hmem t ht
      · rw [ht]; linarith
  · rw [if_neg hfull]
    intro t ht
    simp only [List.mem_append, List.mem_singleton] at ht
    rcases ht with ht | ht
    · exact hmem t ht
    · rw [ht]; linarith

lemma acquireStep_now_ge (maxRequests : ℕ) (timeWindow : ℚ)
    (reqs : List ℚ) (now slack : ℚ) (hs : 0 ≤ slack) :
    now ≤ (acquireStep maxRequests timeWindow reqs now slack).2 := by
  unfold acquireStep
  dsimp only
  by_cases hfull : maxRequests ≤
      (reqs.filter (fun t => now - t < timeWindow)).length
  · rw [if_pos hfull]
    by_cases hwait : 0 < timeWindow -
        (now - (reqs.filter (fun t => now - t < timeWindow)).headD 0)
    · rw [if_pos hwait]; dsimp only; linarith
    · rw [if_neg hwait]
  · rw [if_neg hfull]

lemma acquireRun_invariant (maxRequests : ℕ) (timeWindow : ℚ)
    (hN : 0 < maxRequests) (hW : 0 < timeWindow) :
    ∀ (steps : List (ℚ × ℚ)) (s : List ℚ × ℚ),
      (∀ p ∈ steps, 0 ≤ p.1 ∧ 0 ≤ p.2) →
      s.1.length ≤ maxRequests → (∀ t ∈ s.1, t ≤ s.2) →
      (acquireRun maxRequests timeWindow s steps).1.length ≤ maxRequests ∧
      (∀ t ∈ (acquireRun maxRequests timeWindow s steps).1,
        t ≤ (acquireRun maxRequests timeWindow s steps).2) ∧
      (steps ≠ [] → ∀ t ∈ (acquireRun maxRequests timeWindow s steps).1,
        (acquireRun maxRequests timeWindow s steps).2 - t < timeWindow) := by
  intro steps
  induction steps with
  | nil =>
      intro s _ hlen hle
      exact ⟨hlen, hle, fun h => absurd rfl h⟩
  | cons p rest ih =>
      intro s hsteps hlen hle
      obtain ⟨hd, hsl⟩ := hsteps p (List.mem_cons_self p rest)
      obtain ⟨d, sl⟩ := p
      simp only [acquireRun]
      have hlen' := acquireStep_length_le maxRequests timeWindow s.1 (s.2 + d)
        sl hN hsl hlen
      have hle' : ∀ t ∈ (acquireStep maxRequests timeWindow s.1 (s.2 + d) sl).1,
          t ≤ (acquireStep maxRequests timeWindow s.1 (s.2 + d) sl).2 := by
        apply acquireStep_mem_le maxRequests timeWindow s.1 (s.2 + d) sl hsl
        intro t ht
        have := hle t ht
        simp only at hd
        linarith
      have hrest := ih (acquireStep maxRequests timeWindow s.1 (s.2 + d) sl)
        (fun q hq => hsteps q (List.mem_cons_of_mem _ hq)) hlen' hle'
      refine ⟨hrest.1, hrest.2.1, fun _ => ?_⟩
      cases rest with
      | nil =>
          simp only [acquireRun]
          exact acquireStep_window maxRequests timeWindow s.1 (s.2 + d) sl hW
      | cons q qs =>
          exact hrest.2.2 (by simp)

/--
C1.  For a limiter with positive `max_requests` and positive `time_window`,
run from a fresh (empty) state file through any sequence of acquisitions
with a monotone clock (`0 ≤ d`) and nonnegative sleep slack: immediately
after the run, every retained timestamp `t` satisfies
`0 ≤ now - t < time_window` for the `now` recorded by the last
acquisition, and the retained count never exceeds `max_requests`.
-/
theorem rateLimiter_window_invariant (maxRequests : ℕ) (timeWindow t0 : ℚ)
    (steps : List (ℚ × ℚ)) (hN : 0 < maxRequests) (hW : 0 < timeWindow)
    (hsteps : ∀ p ∈ steps, 0 ≤ p.1 ∧ 0 ≤ p.2) :
    (acquireRun maxRequests timeWindow ([], t0) steps).1.length ≤ maxRequests ∧
    ∀ t ∈ (acquireRun maxRequests timeWindow ([], t0) steps).1,
      0 ≤ (acquireRun maxRequests timeWindow ([], t0) steps).2 - t ∧
      (acquireRun maxRequests timeWindow ([], t0) steps).2 - t < timeWindow := by
  have h := acquireRun_invariant maxRequests timeWindow hN hW steps ([], t0)
    hsteps (by simp) (by simp)
  refine ⟨h.1, fun t ht => ⟨by have := h.2.1 t ht; linarith, ?_⟩⟩
  cases steps with
  | nil => simp only [acquireRun] at ht; simp at ht
  | cons p ps => exact h.2.2 (by simp) t ht

/-- Witness for C1 at `max_requests = 2`, `time_window = 1`: three
back-to-back acquisitions starting from an empty state file. -/
theorem rateLimiter_window_invariant_witness :
    (0 < 2 ∧ (0 : ℚ) < 1) ∧
    ((RateLimiter.acquireRun 2 1 ([], 0)
        [(0, 0), (0, 0), (0, 0)]).1.length ≤ 2 ∧
    ∀ t ∈ (RateLimiter.acquireRun 2 1 ([], 0) [(0, 0), (0, 0), (0, 0)]).1,
      0 ≤ (RateLimiter.acquireRun 2 1 ([], 0) [(0, 0), (0, 0), (0, 0)]).2 - t ∧
      (RateLimiter.acquireRun 2 1 ([], 0) [(0, 0), (0, 0), (0, 0)]).2 - t < 1) :=
  ⟨⟨by decide, by norm_num⟩,
    rateLimiter_window_invariant 2 1 0 [(0, 0), (0, 0), (0, 0)]
      (by decide) (by norm_num) (by decide)⟩

/-!
## JSON state files

`FileBasedRateLimiter._read_and_validate_state` reads the raw file
content as a string, strips it, truncates at the first embedded null
byte, strips again, and then parses it with `json.loads` before
validating the structure.  The JSON value space and a strict
recursive-descent reading of the JSON grammar are modelled below
(finite numbers only: the model omits Python's nonstandard acceptance
of `NaN`/`Infinity`, and combines no surrogate pairs in `\u` escapes;
neither is reachable from the claims' inputs).
-/

inductive Json where
  | null
  | bool (b : Bool)
  | num (q : ℚ)
  | str (s : String)
  | arr (elems : List Json)
  | obj (fields : List (String × Json))

/-- JSON insignificant whitespace. -/
def isJsonWs (c : Char) : Bool :=
  c = ' ' || c = '\t' || c = '\n' || c = '\r'

def skipWs : List Char → List Char
  | [] => []
  | c :: cs => if isJsonWs c then skipWs cs else c :: cs

def hexVal (c : Char) : Option ℕ :=
  if '0' ≤ c ∧ c ≤ '9' then some (c.toNat - 48)
  else if 'a' ≤ c ∧ c ≤ 'f' then some (c.toNat - 87)
  else if 'A' ≤ c ∧ c ≤ 'F' then some (c.toNat - 55)
  else none

/-- Body of a JSON string literal, after the opening quote. -/
def parseStrBody : List Char → List Char → Option (String × List Char)
  | _, [] => none
  | acc, c :: cs =>
    if c = '"' then some (String.mk acc.reverse, cs)
    else if c = '\\' then
      match cs with
      | [] => none
      | e :: cs2 =>
        if e = '"' then parseStrBody ('"' :: acc) cs2
        else if e = '\\' then parseStrBody ('\\' :: acc) cs2
        else if e = '/' then parseStrBody ('/' :: acc) cs2
        else if e = 'b' then parseStrBody ('\x08' :: acc) cs2
        else if e = 'f' then parseStrBody ('\x0c' :: acc) cs2
        else if e = 'n' then parseStrBody ('\n' :: acc) cs2
        else if e = 'r' then parseStrBody ('\r' :: acc) cs2
        else if e = 't' then parseStrBody ('\t' :: acc) cs2
        else if e = 'u' then
          match cs2 with
          | h1 :: h2 :: h3 :: h4 :: cs3 =>
            match hexVal h1, hexVal h2, hexVal h3, hexVal h4 with
            | some a, some b, some c', some d =>
                parseStrBody
                  (Char.ofNat (((a * 16 + b) * 16 + c') * 16 + d) :: acc) cs3
            | _, _, _, _ => none
          | _ => none
        else none
    else if c.toNat < 32 then none
    else parseStrBody (c :: acc) cs

def digitsToNat (ds : List Char) : ℕ :=
  ds.foldl (fun n c => 10 * n + (c.toNat - 48)) 0

def parseExpDigits (base : ℚ) (neg : Bool) (cs : List Char) :
    Option (ℚ × List Char) :=
  let ds := cs.takeWhile Char.isDigit
  let rest := cs.dropWhile Char.isDigit
  if ds.isEmpty then none
  else
    let e : ℕ := digitsToNat ds
    some (if neg then base / (10 : ℚ) ^ e else base * (10 : ℚ) ^ e, rest)

def parseExpPart (base : ℚ) (cs : List Char) : Option (ℚ × List Char) :=
  match cs with
  | c :: rest =>
    if c = 'e' ∨ c = 'E' then
      match rest with
      | '+' :: r2 => parseExpDigits base false r2
      | '-' :: r2 => parseExpDigits base true r2
      | _ => parseExpDigits base false rest
    else some (base, cs)
  | [] => some (base, [])

def parseFracExp (intPart : ℕ) (cs : List Char) : Option (ℚ × List Char) :=
  match cs with
  | '.' :: rest =>
    let fd := rest.takeWhile Char.isDigit
    let rest2 := rest.dropWhile Char.isDigit
    if fd.isEmpty then none
    else parseExpPart
      ((intPart : ℚ) + (digitsToNat fd : ℚ) / (10 : ℚ) ^ fd.length) rest2
  | _ => parseExpPart (intPart : ℚ) cs

/-- A JSON number after an optional leading minus sign: `0|[1-9][0-9]*`
followed by optional fraction and exponent. -/
def parseUnsigned (cs : List Char) : Option (ℚ × List Char) :=
  match cs with
  | [] => none
  | '0' :: rest => parseFracExp 0 rest
  | c :: _ =>
    if c.isDigit then
      parseFracExp (digitsToNat (cs.takeWhile Char.isDigit))
        (cs.dropWhile Char.isDigit)
    else none

def parseNumber (cs : List Char) : Option (ℚ × List Char) :=
  match cs with
  | '-' :: rest => (parseUnsigned rest).map (fun p => (-p.1, p.2))
  | _ => parseUnsigned cs

/-- Python dict insertion: overwrite in place if the key exists, append
otherwise (first-insertion order, last value wins). -/
def dictInsert (fields : List (String × Json)) (k : String) (v : Json) :
    List (String × Json) :=
  match fields with
  | [] => [(k, v)]
  | (k', v') :: rest =>
    if k' = k then (k, v) :: rest else (k', v') :: dictInsert rest k v

def dedupFields (fs : List (String × Json)) : List (String × Json) :=
  fs.foldl (fun acc p => dictInsert acc p.1 p.2) []

mutual

/-- One JSON value, fuel-bounded recursive descent (the fuel chosen by
`jsonLoads` is generous enough for any input that fits in the string). -/
def parseVal : ℕ → List Char → Option (Json × List Char)
  | 0, _ => none
  | fuel + 1, cs =>
    match skipWs cs with
    | [] => none
    | c :: rest =>
      if c = 'n' then
        match rest with
        | 'u' :: 'l' :: 'l' :: r => some (.null, r)
        | _ => none
      else if c = 't' then
        match rest with
        | 'r' :: 'u' :: 'e' :: r => some (.bool true, r)
        | _ => none
      else if c = 'f' then
        match rest with
        | 'a' :: 'l' :: 's' :: 'e' :: r => some (.bool false, r)
        | _ => none
      else if c = '"' then
        (parseStrBody [] rest).map (fun p => (.str p.1, p.2))
      else if c = '[' then
        match skipWs rest with
        | ']' :: r => some (.arr [], r)
        | r2 => (parseItems fuel r2).map (fun p => (.arr p.1, p.2))
      else if c = '\x7b' then
        match skipWs rest with
        | '\x7d' :: r => some (.obj [], r)
        | r2 => (parseFields fuel r2).map (fun p => (.obj (dedupFields p.1), p.2))
      else if c = '-' ∨ c.isDigit then
        (parseNumber (c :: rest)).map (fun p => (.num p.1, p.2))
      else none

/-- Comma-separated array items up to the closing bracket. -/
def parseItems : ℕ → List Char → Option (List Json × List Char)
  | 0, _ => none
  | fuel + 1, cs =>
    match parseVal fuel cs with
    | none => none
    | some (v, rest) =>
      match skipWs rest with
      | ',' :: r2 => (parseItems fuel r2).map (fun p => (v :: p.1, p.2))
      | ']' :: r2 => some ([v], r2)
      | _ => none

/-- Comma-separated `"key": value` object members up to the closing brace. -/
def parseFields : ℕ → List Char → Option (List (String × Json) × List Char)
  | 0, _ => none
  | fuel + 1, cs =>
    match skipWs cs with
    | '"' :: rest =>
      match parseStrBody [] rest with
      | none => none
      | some (k, rest2) =>
        match skipWs rest2 with
        | ':' :: rest3 =>
          match parseVal fuel rest3 with
          | none => none
          | some (v, rest4) =>
            match skipWs rest4 with
            | ',' :: r5 => (parseFields fuel r5).map (fun p => ((k, v) :: p.1, p.2))
            | '\x7d' :: r5 => some ([(k, v)], r5)
            | _ => none
        | _ => none
    | _ => none

end

/-- `json.loads`: one JSON document, nothing but whitespace around it. -/
def jsonLoads (s : String) : Option Json :=
  match parseVal (2 * s.length + 2) s.data with
  | some (v, rest) => if (skipWs rest).isEmpty then some v else none
  | none => none

/-- Python `str.strip()` whitespace (the ASCII cases). -/
def pyIsSpace (c : Char) : Bool :=
  c = ' ' || c = '\t' || c = '\n' || c = '\r' || c = '\x0b' || c = '\x0c'

def pyStrip (s : String) : String :=
  String.mk (((s.data.dropWhile pyIsSpace).reverse.dropWhile pyIsSpace).reverse)

/-- `content[:content.index('\x00')]` when a null byte is present,
`content` unchanged otherwise. -/
def truncAtNull (s : String) : String :=
  String.mk (s.data.takeWhile (fun c => ¬ c = '\x00'))

/-- The fresh, full-capacity state written for an absent or discarded log. -/
def freshState : Json := .obj [("requests", .arr [])]

def lookupField (fields : List (String × Json)) (k : String) : Option Json :=
  (fields.find? (fun p => p.1 = k)).map Prod.snd

/-- `isinstance(ts, (int, float))`: booleans pass, because Python `bool`
is a subclass of `int`. -/
def isNumericTs (j : Json) : Bool :=
  match j with
  | .num _ => true
  | .bool _ => true
  | _ => false

/-- Structure validation of a parsed state document, mirroring the
`ValueError`-raising checks that `_read_and_validate_state` catches by
returning a fresh state. -/
def validateState (data : Json) : Json :=
  match data with
  | .obj fields =>
    match lookupField fields "requests" with
    | some (.arr ts) => if ts.all isNumericTs then data else freshState
    | some _ => freshState
    | none => freshState
  | _ => freshState

/-- The content `_read_and_validate_state` actually parses: read, strip,
truncate at the first null byte, strip again. -/
def contentOf (raw : String) : String := pyStrip (truncAtNull (pyStrip raw))

/-- `FileBasedRateLimiter._read_and_validate_state` on the raw file
content (total: every failure mode resolves to `freshState`). -/
def readAndValidateState (raw : String) : Json :=
  if (contentOf raw).isEmpty then freshState
  else
    match jsonLoads (contentOf raw) with
    | none => freshState
    | some data => validateState data

/-- A state document of the shape the limiter can use directly:
a mapping with a `"requests"` member holding a list of numbers. -/
def validShape (j : Json) : Bool :=
  match j with
  | .obj fields =>
    match lookupField fields "requests" with
    | some (.arr ts) => ts.all isNumericTs
    | _ => false
  | _ => false

/-- Structural invalidity of raw file content, judged — as the code
judges it — on the null-truncated, stripped content. -/
def structurallyInvalid (raw : String) : Bool :=
  match jsonLoads (contentOf raw) with
  | none => true
  | some d => !(validShape d)

/-- Number of retained timestamps in a state document. -/
def requestCount (j : Json) : ℕ :=
  match j with
  | .obj fields =>
    match lookupField fields "requests" with
    | some (.arr ts) => ts.length
    | _ => 0
  | _ => 0

lemma validateState_eq (d : Json) :
    validateState d = if validShape d then d else freshState := by
  cases d with
  | obj fields =>
      unfold validateState validShape
      cases hl : lookupField fields "requests" with
      | none => simp [hl]
      | some v =>
          cases v with
          | arr ts => by_cases hts : ts.all isNumericTs <;> simp [hl, hts]
          | null => simp [hl]
          | bool b => simp [hl]
          | num q => simp [hl]
          | str s => simp [hl]
          | obj fs => simp [hl]
  | null => simp [validateState, validShape]
  | bool b => simp [validateState, validShape]
  | num q => simp [validateState, validShape]
  | str s => simp [validateState, validShape]
  | arr es => simp [validateState, validShape]

lemma validShape_freshState : validShape freshState = true := rfl

lemma validShape_validateState (d : Json) :
    validShape (validateState d) = true := by
  rw [validateState_eq]
  by_cases h : validShape d
  · simp only [h, if_true]
  · simp [h, validShape_freshState]

lemma validShape_readAndValidateState (s : String) :
    validShape (readAndValidateState s) = true := by
  unfold readAndValidateState
  by_cases he : (contentOf s).isEmpty
  · simp [he, validShape_freshState]
  · simp only [he, if_neg, Bool.false_eq_true, not_false_iff]
    cases hj : jsonLoads (contentOf s) with
    | none => simp [validShape_freshState]
    | some d => simp [validShape_validateState]

/--
C3 (amended).  Structurally invalid persisted content — not a mapping,
missing the `requests` field, a non-list log, non-numeric entries,
malformed JSON, or empty content, judged on the content left after the
code truncates at the first embedded null byte and strips whitespace —
is discarded: the next read resolves to the empty, full-capacity state,
and the read is total (for every content it returns a usable,
structurally valid state, never an error).  Content with embedded null
bytes whose prefix before the first null is itself a valid state is,
however, truncated and retained, not discarded.
-/
theorem stateValidation_discards_invalid (raw : String)
    (h : structurallyInvalid raw = true) :
    readAndValidateState raw = freshState ∧
    ∀ s : String, validShape (readAndValidateState s) = true := by
  refine ⟨?_, validShape_readAndValidateState⟩
  unfold readAndValidateState
  by_cases he : (contentOf raw).isEmpty
  · simp [he]
  · simp only [he, if_neg, Bool.false_eq_true, not_false_iff]
    cases hj : jsonLoads (contentOf raw) with
    | none => simp
    | some d =>
        unfold structurallyInvalid at h
        rw [hj] at h
        simp only [Bool.not_eq_true'] at h
        simp [validateState_eq, h]

/-- Witness for C3 (amended) at the malformed content `"not json"`. -/
theorem stateValidation_discards_invalid_witness :
    RateLimiter.structurallyInvalid "not json" = true ∧
    (RateLimiter.readAndValidateState "not json" = RateLimiter.freshState ∧
      ∀ s : String,
        RateLimiter.validShape (RateLimiter.readAndValidateState s) = true) :=
  ⟨rfl, stateValidation_discards_invalid "not json" rfl⟩

/--
C3 counterexample.  The content `{"requests": [1]}` followed by a null
byte and junk contains an embedded null byte — one of the claim's
structurally-invalid classes — yet the next read does **not** discard it
to an empty log: the code truncates at the null byte and retains the
valid prefix with its one timestamp.
-/
theorem stateValidation_nullbyte_retained :
    ("\x7b\"requests\": [1]\x7d\x00junk" : String).data.contains '\x00' = true ∧
    RateLimiter.readAndValidateState "\x7b\"requests\": [1]\x7d\x00junk" ≠
      RateLimiter.freshState := by
  refine ⟨by decide, fun h => ?_⟩
  have h1 : RateLimiter.requestCount
      (RateLimiter.readAndValidateState "\x7b\"requests\": [1]\x7d\x00junk") = 1 := by
    rfl
  rw [h] at h1
  have h2 : RateLimiter.requestCount RateLimiter.freshState = 0 := rfl
  rw [h1] at h2
  exact absurd h2 (by decide)

/-!
## Filesystem failure semantics of `_acquire_sync`

`_acquire_sync` wraps the lazy creation of the state file in one
`try/except (OSError, IOError)` that logs and returns, and the whole
open/lock/read/prune/sleep/append/write critical section in another.
`_write_state` catches `(OSError, IOError)`, logs, and re-raises; the
re-raised error is caught by the outer handler, which logs and returns.
Every OS-level failure point is driven here by an explicit oracle; the
`propagated` field records whether an exception escaped `_acquire_sync`
to its caller.
-/

/-- Which OS-level filesystem operations fail during this acquisition:
creating the missing state file; opening/locking it; reading it; and
writing the updated state back. -/
structure FsEff where
  createFails : Bool
  openFails : Bool
  readFails : Bool
  writeFails : Bool

/-- Outcome of one `_acquire_sync` call: whether an exception escaped to
the caller, the total time slept inside the call (the throttling), and
the state document persisted by the call (`none` when nothing was
written). -/
structure AcqResult where
  propagated : Bool
  slept : ℚ
  written : Option Json

/-- Numeric value of a validated timestamp entry in Python arithmetic
(`True == 1`, `False == 0`; validation guarantees no other shapes). -/
def tsVal : Json → ℚ
  | .num q => q
  | .bool b => if b then 1 else 0
  | _ => 0

def fieldsOf : Json → List (String × Json)
  | .obj fs => fs
  | _ => []

def requestsOf (data : Json) : List Json :=
  match data with
  | .obj fields =>
    match lookupField fields "requests" with
    | some (.arr ts) => ts
    | _ => []
  | _ => []

/-- `_write_state`: on OS failure it logs, re-raises, and the outer
handler in `_acquire_sync` catches — so the call still returns normally,
with nothing durably written. -/
def acquireWrite (eff : FsEff) (fields : List (String × Json))
    (newTs : List Json) (slept : ℚ) : AcqResult :=
  if eff.writeFails then ⟨false, slept, none⟩
  else ⟨false, slept, some (.obj (dictInsert fields "requests" (.arr newTs)))⟩

/-- The locked critical section of `_acquire_sync` on the current file
content, starting after the existence check.  Open/lock/read failures
raise `OSError`, which the outer handler catches (log, return): no
sleep has happened yet on those paths. -/
def acquireLocked (maxRequests : ℕ) (timeWindow : ℚ) (eff : FsEff)
    (content : String) (now slack : ℚ) : AcqResult :=
  if eff.openFails then ⟨false, 0, none⟩
  else if eff.readFails then ⟨false, 0, none⟩
  else
    let data := readAndValidateState content
    let pruned := (requestsOf data).filter (fun j => now - tsVal j < timeWindow)
    if maxRequests ≤ pruned.length then
      let oldest := tsVal (pruned.headD (.num 0))
      let wait := timeWindow - (now - oldest)
      if 0 < wait then
        let now2 := now + wait + slack
        let pruned2 := pruned.filter (fun j => now2 - tsVal j < timeWindow)
        acquireWrite eff (fieldsOf data) (pruned2 ++ [.num now2]) (wait + slack)
      else
        acquireWrite eff (fieldsOf data) (pruned ++ [.num now]) 0
    else
      acquireWrite eff (fieldsOf data) (pruned ++ [.num now]) 0

/-- `_acquire_sync` under the filesystem-failure oracle: `file` is the
state file's current content (`none` when the file does not exist; the
lazy creation writes `{"requests": []}`). -/
def acquireSyncFs (maxRequests : ℕ) (timeWindow : ℚ) (eff : FsEff)
    (file : Option String) (now slack : ℚ) : AcqResult :=
  match file with
  | none =>
    if eff.createFails then ⟨false, 0, none⟩
    else acquireLocked maxRequests timeWindow eff
      "\x7b\"requests\": []\x7d" now slack
  | some content => acquireLocked maxRequests timeWindow eff content now slack

lemma acquireWrite_propagated (eff : FsEff) (fields : List (String × Json))
    (newTs : List Json) (slept : ℚ) :
    (acquireWrite eff fields newTs slept).propagated = false := by
  unfold acquireWrite
  split <;> rfl

lemma acquireWrite_written_of_fail (eff : FsEff)
    (fields : List (String × Json)) (newTs : List Json) (slept : ℚ)
    (h : eff.writeFails = true) :
    (acquireWrite eff fields newTs slept).written = none := by
  simp [acquireWrite, h]

lemma acquireLocked_propagated (maxRequests : ℕ) (timeWindow : ℚ)
    (eff : FsEff) (content : String) (now slack : ℚ) :
    (acquireLocked maxRequests timeWindow eff content now slack).propagated
      = false := by
  unfold acquireLocked
  split
  · rfl
  · split
    · rfl
    · dsimp only
      split
      · split
        · exact acquireWrite_propagated _ _ _ _
        · exact acquireWrite_propagated _ _ _ _
      · exact acquireWrite_propagated _ _ _ _

lemma acquireLocked_written_of_fail (maxRequests : ℕ) (timeWindow : ℚ)
    (eff : FsEff) (content : String) (now slack : ℚ)
    (h : eff.writeFails = true) :
    (acquireLocked maxRequests timeWindow eff content now slack).written
      = none := by
  unfold acquireLocked
  split
  · rfl
  · split
    · rfl
    · dsimp only
      split
      · split
        · exact acquireWrite_written_of_fail _ _ _ _ h
        · exact acquireWrite_written_of_fail _ _ _ _ h
      · exact acquireWrite_written_of_fail _ _ _ _ h

lemma acquireLocked_early_fail (maxRequests : ℕ) (timeWindow : ℚ)
    (eff : FsEff) (content : String) (now slack : ℚ)
    (h : eff.openFails = true ∨ eff.readFails = true) :
    (acquireLocked maxRequests timeWindow eff content now slack).slept = 0 ∧
    (acquireLocked maxRequests timeWindow eff content now slack).written
      = none := by
  unfold acquireLocked
  rcases h with h | h
  · simp [h]
  · by_cases ho : eff.openFails = true
    · simp [ho]
    · simp [ho, h]

/--
C5 (amended).  Every OS-level filesystem failure during an acquire of
the defensive `FileBasedRateLimiter` is caught (never propagated to the
caller, sync or async).  Failures while creating, opening, locking or
reading the state file occur before the throttling decision, so that
call sleeps for zero time and writes nothing; a failure while writing
the updated state back still returns normally and persists nothing, but
happens after the sliding-window sleep, so the throttling already taken
by that call is not undone.
-/
theorem acquire_fs_failures_never_propagate (maxRequests : ℕ)
    (timeWindow : ℚ) (eff : FsEff) (file : Option String) (now slack : ℚ) :
    (acquireSyncFs maxRequests timeWindow eff file now slack).propagated
        = false ∧
    (eff.openFails = true ∨ eff.readFails = true →
      (acquireSyncFs maxRequests timeWindow eff file now slack).slept = 0 ∧
      (acquireSyncFs maxRequests timeWindow eff file now slack).written
        = none) ∧
    (file = none → eff.createFails = true →
      (acquireSyncFs maxRequests timeWindow eff file now slack).slept = 0 ∧
      (acquireSyncFs maxRequests timeWindow eff file now slack).written
        = none) ∧
    (eff.writeFails = true →
      (acquireSyncFs maxRequests timeWindow eff file now slack).written
        = none) := by
  cases file with
  | none =>
      by_cases hc : eff.createFails = true
      · refine ⟨?_, ?_, ?_, ?_⟩ <;> simp [acquireSyncFs, hc]
      · refine ⟨?_, fun h => ?_, fun _ hc' => absurd hc' hc, fun hw => ?_⟩
        · simp only [acquireSyncFs, hc, if_neg, Bool.false_eq_true,
            not_false_iff]
          exact acquireLocked_propagated _ _ _ _ _ _
        · simp only [acquireSyncFs, hc, if_neg, Bool.false_eq_true,
            not_false_iff]
          exact acquireLocked_early_fail _ _ _ _ _ _ h
        · simp only [acquireSyncFs, hc, if_neg, Bool.false_eq_true,
            not_false_iff]
          exact acquireLocked_written_of_fail _ _ _ _ _ _ hw
  | some content =>
      exact ⟨acquireLocked_propagated _ _ _ _ _ _,
        fun h => acquireLocked_early_fail _ _ _ _ _ _ h,
        fun hfile _ => Option.noConfusion hfile,
        fun hw => acquireLocked_written_of_fail _ _ _ _ _ _ hw⟩

/-- Witness for C5 (amended): a missing state file and an oracle on
which every filesystem operation fails. -/
theorem acquire_fs_failures_never_propagate_witness :
    (RateLimiter.acquireSyncFs 3 1 ⟨true, true, true, true⟩ none 5
        0).propagated = false ∧
    ((true : Bool) = true ∨ (true : Bool) = true →
      (RateLimiter.acquireSyncFs 3 1 ⟨true, true, true, true⟩ none 5
          0).slept = 0 ∧
      (RateLimiter.acquireSyncFs 3 1 ⟨true, true, true, true⟩ none 5
          0).written = none) ∧
    ((none : Option String) = none → (true : Bool) = true →
      (RateLimiter.acquireSyncFs 3 1 ⟨true, true, true, true⟩ none 5
          0).slept = 0 ∧
      (RateLimiter.acquireSyncFs 3 1 ⟨true, true, true, true⟩ none 5
          0).written = none) ∧
    ((true : Bool) = true →
      (RateLimiter.acquireSyncFs 3 1 ⟨true, true, true, true⟩ none 5
          0).written = none) :=
  acquire_fs_failures_never_propagate 3 1 ⟨true, true, true, true⟩ none 5 0

lemma acquire_write_failure_slept :
    (RateLimiter.acquireSyncFs 1 10 ⟨false, false, false, true⟩
        (some "\x7b\"requests\": [5]\x7d") 6 0).slept = 9 := by
  have h1 : requestsOf
      (readAndValidateState "\x7b\"requests\": [5]\x7d") =
      [Json.num ((5 : ℕ) : ℚ)] := rfl
  simp only [acquireSyncFs, acquireLocked, acquireWrite, h1, tsVal,
    List.filter_cons, List.filter_nil, decide_eq_true_eq]
  norm_num

/--
C5 counterexample.  With a full in-window log (`max_requests = 1`,
`time_window = 10`, one retained timestamp `5` at `now = 6`) and a
filesystem failure in the write step, the acquire returns normally —
but only after sleeping `9` seconds: a filesystem I/O failure for which
the call **was** throttled, contradicting "returns normally without
throttling that call" for every filesystem failure.
-/
theorem acquire_write_failure_after_throttle :
    (FsEff.mk false false false true).writeFails = true ∧
    (RateLimiter.acquireSyncFs 1 10 ⟨false, false, false, true⟩
        (some "\x7b\"requests\": [5]\x7d") 6 0).propagated = false ∧
    (RateLimiter.acquireSyncFs 1 10 ⟨false, false, false, true⟩
        (some "\x7b\"requests\": [5]\x7d") 6 0).slept = 9 ∧
    ¬ (RateLimiter.acquireSyncFs 1 10 ⟨false, false, false, true⟩
        (some "\x7b\"requests\": [5]\x7d") 6 0).slept = 0 := by
  refine ⟨rfl, acquireLocked_propagated _ _ _ _ _ _,
    acquire_write_failure_slept, fun h => ?_⟩
  rw [acquire_write_failure_slept] at h
  norm_num at h

end RateLimiter

namespace ToolCache

/-!
## The disk-cache decorator (`tools/utils.py`)

Python values that can appear as tool arguments and results are
modelled by `PyVal`.  Floats are omitted (tool arguments in this
repository are identifiers, names and counts); `obj s` stands for any
other Python object whose `str()` is `s` — the value `json.dumps`'s
`default=str` hook serializes; `dict` keys are strings, as keyword
argument names always are.
-/

inductive PyVal where
  | none
  | bool (b : Bool)
  | int (n : ℤ)
  | str (s : String)
  | list (xs : List PyVal)
  | tuple (xs : List PyVal)
  | dict (fields : List (String × PyVal))
  | obj (s : String)

/-- Python string `<` : lexicographic comparison by code point. -/
def strLtb : List Char → List Char → Bool
  | [], [] => false
  | [], _ :: _ => true
  | _ :: _, [] => false
  | a :: as, b :: bs =>
    if a.toNat < b.toNat then true
    else if b.toNat < a.toNat then false
    else strLtb as bs

/-- Python string `<=` on the underlying character sequences. -/
def pyStrLe (a b : String) : Bool := !(strLtb b.data a.data)

lemma strLtb_asymm : ∀ a b : List Char, strLtb a b = true → strLtb b a = false := by
  intro a
  induction a with
  | nil =>
      intro b h
      cases b with
      | nil => simp [strLtb] at h
      | cons y ys => simp [strLtb]
  | cons x xs ih =>
      intro b h
      cases b with
      | nil => simp [strLtb] at h
      | cons y ys =>
          simp only [strLtb] at h ⊢
          by_cases h1 : x.toNat < y.toNat
          · have h2 : ¬ y.toNat < x.toNat := by omega
            simp [h1, h2]
          · by_cases h2 : y.toNat < x.toNat
            · simp [h1, h2] at h
            · simp only [if_neg h1, if_neg h2] at h ⊢
              exact ih ys h

lemma strLtb_connect : ∀ c a b : List Char,
    strLtb c a = true → strLtb c b = true ∨ strLtb b a = true := by
  intro c
  induction c with
  | nil =>
      intro a b h
      cases a with
      | nil => simp [strLtb] at h
      | cons x xs =>
          cases b with
          | nil => right; simp [strLtb]
          | cons y ys => left; simp [strLtb]
  | cons z zs ih =>
      intro a b h
      cases a with
      | nil => simp [strLtb] at h
      | cons x xs =>
          cases b with
          | nil => right; simp [strLtb]
          | cons y ys =>
              simp only [strLtb] at h ⊢
              by_cases hzx : z.toNat < x.toNat
              · by_cases hzy : z.toNat < y.toNat
                · left; simp [hzy]
                · right
                  have hyx : y.toNat < x.toNat := by omega
                  simp [hyx]
              · by_cases hxz : x.toNat < z.toNat
                · simp [hzx, hxz] at h
                · simp only [if_neg hzx, if_neg hxz] at h
                  by_cases hzy : z.toNat < y.toNat
                  · left; simp [hzy]
                  · by_cases hyz : y.toNat < z.toNat
                    · right
                      have hyx : y.toNat < x.toNat := by omega
                      simp [hyx]
                    · have hyx : ¬ y.toNat < x.toNat := by omega
                      have hxy : ¬ x.toNat < y.toNat := by omega
                      rcases ih xs ys h with h' | h'
                      · left; simp [hzy, hyz, h']
                      · right; simp [hyx, hxy, h']

lemma strLtb_antisymm : ∀ a b : List Char,
    strLtb a b = false → strLtb b a = false → a = b := by
  intro a
  induction a with
  | nil =>
      intro b h1 _
      cases b with
      | nil => rfl
      | cons y ys => simp [strLtb] at h1
  | cons x xs ih =>
      intro b h1 h2
      cases b with
      | nil => simp [strLtb] at h2
      | cons y ys =>
          simp only [strLtb] at h1 h2
          by_cases hxy : x.toNat < y.toNat
          · simp [hxy] at h1
          · by_cases hyx : y.toNat < x.toNat
            · simp [hyx] at h2
            · simp only [if_neg hxy, if_neg hyx] at h1 h2
              have hx : x = y := by
                have hn : x.toNat = y.toNat := by omega
                exact Char.eq_of_val_eq (UInt32.ext hn)
              rw [hx, ih ys h1 h2]

/-- Ordering of dict members by key, as `json.dumps(..., sort_keys=True)`
sorts them (Python compares strings by code point). -/
def keyLe {α : Type} (a b : String × α) : Prop := pyStrLe a.1 b.1 = true

instance {α : Type} : DecidableRel (@keyLe α) :=
  fun a b => inferInstanceAs (Decidable (pyStrLe a.1 b.1 = true))

instance {α : Type} : IsTotal (String × α) keyLe :=
  ⟨fun a b => by
    unfold keyLe pyStrLe
    by_cases h : strLtb b.1.data a.1.data = true
    · right
      simp [strLtb_asymm _ _ h]
    · left
      simp only [Bool.not_eq_true] at h
      simp [h]⟩

instance {α : Type} : IsTrans (String × α) keyLe :=
  ⟨fun a b c h1 h2 => by
    unfold keyLe pyStrLe at h1 h2 ⊢
    simp only [Bool.not_eq_true'] at h1 h2 ⊢
    by_cases h : strLtb c.1.data a.1.data = true
    · rcases strLtb_connect _ _ b.1.data h with h' | h'
      · rw [h'] at h2; cases h2
      · rw [h'] at h1; cases h1
    · simpa using h⟩

def hexDigit (n : ℕ) : Char :=
  if n < 10 then Char.ofNat (48 + n) else Char.ofNat (87 + (n - 10))

/-- A `\uXXXX` escape (lowercase hex, as `json.dumps` emits). -/
def uEscape (n : ℕ) : List Char :=
  ['\\', 'u', hexDigit (n / 4096 % 16), hexDigit (n / 256 % 16),
    hexDigit (n / 16 % 16), hexDigit (n % 16)]

/-- `json.dumps` string escaping with the default `ensure_ascii=True`:
short escapes for the JSON control escapes, `\uXXXX` for the remaining
control characters and all non-ASCII (surrogate pairs above the BMP). -/
def escapeChar (c : Char) : List Char :=
  if c = '"' then ['\\', '"']
  else if c = '\\' then ['\\', '\\']
  else if c = '\n' then ['\\', 'n']
  else if c = '\r' then ['\\', 'r']
  else if c = '\t' then ['\\', 't']
  else if c = '\x08' then ['\\', 'b']
  else if c = '\x0c' then ['\\', 'f']
  else if c.toNat < 32 ∨ 127 ≤ c.toNat then
    if c.toNat < 65536 then uEscape c.toNat
    else
      uEscape (55296 + (c.toNat - 65536) / 1024) ++
        uEscape (56320 + (c.toNat - 65536) % 1024)
  else [c]

def escapeList : List Char → List Char
  | [] => []
  | c :: rest => escapeChar c ++ escapeList rest

/-- A serialized JSON string literal. -/
def dumpStr (s : String) : String :=
  String.mk ('"' :: (escapeList s.data ++ ['"']))

/-- Dump each dict value, keeping the keys (`json.dumps` sorts members
by key only, so dumping values first commutes with the sort). -/
def sortFields (fs : List (String × String)) : List (String × String) :=
  List.insertionSort keyLe fs

def joinMembers : List (String × String) → String
  | [] => ""
  | [(k, s)] => dumpStr k ++ ": " ++ s
  | (k, s) :: rest => dumpStr k ++ ": " ++ s ++ ", " ++ joinMembers rest

mutual

/-- `json.dumps(v, sort_keys=True, default=str)` with the default
separators `(", ", ": ")`: tuples serialize as arrays, dict members are
sorted by key at every level, and any other object is serialized as the
JSON string of its `str()`. -/
def jsonDumpsPy : PyVal → String
  | .none => "null"
  | .bool b => if b then "true" else "false"
  | .int n => toString n
  | .str s => dumpStr s
  | .list xs => "[" ++ dumpItems xs ++ "]"
  | .tuple xs => "[" ++ dumpItems xs ++ "]"
  | .dict fs => "\x7b" ++ joinMembers (sortFields (dumpFields fs)) ++ "\x7d"
  | .obj s => dumpStr s

def dumpItems : List PyVal → String
  | [] => ""
  | [x] => jsonDumpsPy x
  | x :: xs => jsonDumpsPy x ++ ", " ++ dumpItems xs

def dumpFields : List (String × PyVal) → List (String × String)
  | [] => []
  | (k, v) :: rest => (k, jsonDumpsPy v) :: dumpFields rest

end

def pyNoneOr : Option String → PyVal
  | Option.none => .none
  | some s => .str s

/-- The canonical payload `_default_key_fn` builds before serializing:
`{"v": version, "func": module.qualname, "args": args, "kwargs": kwargs,
"tag": tag}`. -/
def defaultKeyPayload (funcId : String) (args : List PyVal)
    (kwargs : List (String × PyVal)) (version : String)
    (tag : Option String) : PyVal :=
  .dict [("v", .str version), ("func", .str funcId), ("args", .tuple args),
    ("kwargs", .dict kwargs), ("tag", pyNoneOr tag)]

/--
The serialized text that `_default_key_fn` hashes: the source returns
`hashlib.sha256(text.encode("utf-8")).hexdigest()`.  Equal texts give
equal digests, and SHA-256 is treated as collision-free on distinct
texts, so key equality and inequality are settled at the level of this
serialized payload.
-/
def defaultKeyText (funcId : String) (args : List PyVal)
    (kwargs : List (String × PyVal)) (version : String)
    (tag : Option String) : String :=
  jsonDumpsPy (defaultKeyPayload funcId args kwargs version tag)

/-- The exact shape of the serialized payload after `sort_keys=True`
orders the five members `args < func < kwargs < tag < v`. -/
def mkPayloadText (ta tf tk tt tv : String) : String :=
  "\x7b" ++ (dumpStr "args" ++ ": " ++ ta ++ ", " ++
    (dumpStr "func" ++ ": " ++ tf ++ ", " ++
      (dumpStr "kwargs" ++ ": " ++ tk ++ ", " ++
        (dumpStr "tag" ++ ": " ++ tt ++ ", " ++
          (dumpStr "v" ++ ": " ++ tv))))) ++ "\x7d"

lemma defaultKeyText_shape (funcId : String) (args : List PyVal)
    (kwargs : List (String × PyVal)) (version : String)
    (tag : Option String) :
    defaultKeyText funcId args kwargs version tag =
      mkPayloadText (jsonDumpsPy (.tuple args)) (dumpStr funcId)
        (jsonDumpsPy (.dict kwargs)) (jsonDumpsPy (pyNoneOr tag))
        (dumpStr version) := rfl

lemma str_data_inj {a b : String} (h : a.data = b.data) : a = b := by
  cases a
  cases b
  exact congrArg String.mk h

lemma str_app_left_cancel {A x y : String} (h : A ++ x = A ++ y) : x = y := by
  apply str_data_inj
  have hd := congrArg String.data h
  rw [String.data_append, String.data_append] at hd
  exact List.append_cancel_left hd

lemma str_app_right_cancel {x y B : String} (h : x ++ B = y ++ B) : x = y := by
  apply str_data_inj
  have hd := congrArg String.data h
  rw [String.data_append, String.data_append] at hd
  exact List.append_cancel_right hd

lemma mkPayloadText_core_cancel {ta tf tk tt tv ta' tf' tk' tt' tv' : String}
    (h : mkPayloadText ta tf tk tt tv = mkPayloadText ta' tf' tk' tt' tv') :
    dumpStr "args" ++ ": " ++ ta ++ ", " ++
      (dumpStr "func" ++ ": " ++ tf ++ ", " ++
        (dumpStr "kwargs" ++ ": " ++ tk ++ ", " ++
          (dumpStr "tag" ++ ": " ++ tt ++ ", " ++
            (dumpStr "v" ++ ": " ++ tv)))) =
    dumpStr "args" ++ ": " ++ ta' ++ ", " ++
      (dumpStr "func" ++ ": " ++ tf' ++ ", " ++
        (dumpStr "kwargs" ++ ": " ++ tk' ++ ", " ++
          (dumpStr "tag" ++ ": " ++ tt' ++ ", " ++
            (dumpStr "v" ++ ": " ++ tv')))) := by
  unfold mkPayloadText at h
  exact str_app_left_cancel (str_app_right_cancel h)

lemma mkPayloadText_v_inj {ta tf tk tt tv tv' : String}
    (h : mkPayloadText ta tf tk tt tv = mkPayloadText ta tf tk tt tv') :
    tv = tv' := by
  have h1 := mkPayloadText_core_cancel h
  have h2 := str_app_left_cancel h1
  have h3 := str_app_left_cancel h2
  have h4 := str_app_left_cancel h3
  have h5 := str_app_left_cancel h4
  exact str_app_left_cancel h5

lemma mkPayloadText_tag_inj {ta tf tk tt tt' tv : String}
    (h : mkPayloadText ta tf tk tt tv = mkPayloadText ta tf tk tt' tv) :
    tt = tt' := by
  have h1 := mkPayloadText_core_cancel h
  have h2 := str_app_left_cancel (str_app_left_cancel
    (str_app_left_cancel h1))
  -- `dumpStr "tag" ++ ": " ++ tt ++ ", " ++ V = … tt' …` with equal `V`
  exact str_app_left_cancel (str_app_right_cancel (str_app_right_cancel h2))

lemma mkPayloadText_kwargs_inj {ta tf tk tk' tt tv : String}
    (h : mkPayloadText ta tf tk tt tv = mkPayloadText ta tf tk' tt tv) :
    tk = tk' := by
  have h1 := mkPayloadText_core_cancel h
  have h2 := str_app_left_cancel (str_app_left_cancel h1)
  exact str_app_left_cancel (str_app_right_cancel (str_app_right_cancel h2))

lemma mkPayloadText_args_inj {ta ta' tf tk tt tv : String}
    (h : mkPayloadText ta tf tk tt tv = mkPayloadText ta' tf tk tt tv) :
    ta = ta' := by
  have h1 := mkPayloadText_core_cancel h
  exact str_app_left_cancel (str_app_right_cancel (str_app_right_cancel h1))

/-- ASCII printable characters that serialize as themselves. -/
def plainChar (c : Char) : Bool :=
  (32 ≤ c.toNat && c.toNat < 127) && !(c = '"') && !(c = '\\')

def plainStr (s : String) : Bool := s.data.all plainChar

lemma escapeChar_plain (c : Char) (h : plainChar c = true) :
    escapeChar c = [c] := by
  simp only [plainChar, Bool.and_eq_true, Bool.not_eq_true',
    decide_eq_true_eq, decide_eq_false_iff_not] at h
  obtain ⟨⟨⟨h1, h2⟩, h3⟩, h4⟩ := h
  unfold escapeChar
  rw [if_neg h3, if_neg h4]
  rw [if_neg (fun he => by subst he; exact absurd h1 (by decide))]
  rw [if_neg (fun he => by subst he; exact absurd h1 (by decide))]
  rw [if_neg (fun he => by subst he; exact absurd h1 (by decide))]
  rw [if_neg (fun he => by subst he; exact absurd h1 (by decide))]
  rw [if_neg (fun he => by subst he; exact absurd h1 (by decide))]
  rw [if_neg (by omega)]

lemma escapeList_plain (cs : List Char) (h : ∀ c ∈ cs, plainChar c = true) :
    escapeList cs = cs := by
  induction cs with
  | nil => rfl
  | cons c rest ih =>
      unfold escapeList
      rw [escapeChar_plain c (h c (List.mem_cons_self c rest)),
        ih (fun x hx => h x (List.mem_cons_of_mem _ hx))]
      rfl

lemma dumpStr_inj_plain {s s' : String} (hs : plainStr s = true)
    (hs' : plainStr s' = true) (h : dumpStr s = dumpStr s') : s = s' := by
  unfold dumpStr at h
  have hd := congrArg String.data h
  simp only [List.cons.injEq, true_and] at hd
  have h2 := List.append_cancel_right hd
  rw [escapeList_plain s.data (by
        unfold plainStr at hs
        exact fun c hc => List.all_eq_true.mp hs c hc),
    escapeList_plain s'.data (by
        unfold plainStr at hs'
        exact fun c hc => List.all_eq_true.mp hs' c hc)] at h2
  exact str_data_inj h2

lemma keyLe_antisymm_key {α : Type} {a b : String × α}
    (h1 : keyLe a b) (h2 : keyLe b a) : a.1 = b.1 := by
  unfold keyLe pyStrLe at h1 h2
  simp only [Bool.not_eq_true'] at h1 h2
  exact str_data_inj (strLtb_antisymm _ _ h2 h1)

/-- Two lists of members that are permutations of each other, both
sorted by key, with no duplicate keys, are equal — the reason
`sort_keys=True` makes serialization insensitive to kwargs order. -/
lemma sorted_keyLe_nodup_eq :
    ∀ l1 l2 : List (String × String), l1.Perm l2 → l1.Sorted keyLe →
      l2.Sorted keyLe → (l1.map Prod.fst).Nodup → l1 = l2 := by
  intro l1
  induction l1 with
  | nil =>
      intro l2 hp _ _ _
      exact hp.nil_eq
  | cons a t1 ih =>
      intro l2 hp hs1 hs2 hnd
      cases l2 with
      | nil =>
          have := hp.length_eq
          simp at this
      | cons b t2 =>
          have hab : a = b := by
            have hmemb : b ∈ a :: t1 := hp.mem_iff.mpr (List.mem_cons_self b t2)
            rcases List.mem_cons.mp hmemb with hba | hbt1
            · exact hba.symm
            · have hmema : a ∈ b :: t2 := hp.subset (List.mem_cons_self a t1)
              rcases List.mem_cons.mp hmema with hab | hat2
              · exact hab
              · have hk1 : keyLe a b := (List.sorted_cons.mp hs1).1 b hbt1
                have hk2 : keyLe b a := (List.sorted_cons.mp hs2).1 a hat2
                have hk := keyLe_antisymm_key hk1 hk2
                exfalso
                have hmem : a.1 ∈ t1.map Prod.fst := by
                  rw [hk]
                  exact List.mem_map_of_mem Prod.fst hbt1
                have hnd' : a.1 ∉ t1.map Prod.fst := by
                  rw [List.map_cons] at hnd
                  exact (List.nodup_cons.mp hnd).1
                exact hnd' hmem
          subst hab
          have ht : t1 = t2 := by
            apply ih t2 hp.cons_inv (List.sorted_cons.mp hs1).2
              (List.sorted_cons.mp hs2).2
            rw [List.map_cons] at hnd
            exact (List.nodup_cons.mp hnd).2
          rw [ht]

lemma dumpFields_map (fs : List (String × PyVal)) :
    dumpFields fs = fs.map (fun p => (p.1, jsonDumpsPy p.2)) := by
  induction fs with
  | nil => rfl
  | cons p rest ih =>
      obtain ⟨k, v⟩ := p
      simp only [dumpFields, List.map_cons, ih]

lemma jsonDumpsPy_dict_perm (kw kw' : List (String × PyVal))
    (hnd : (kw.map Prod.fst).Nodup) (hp : kw.Perm kw') :
    jsonDumpsPy (.dict kw) = jsonDumpsPy (.dict kw') := by
  have hperm : (dumpFields kw).Perm (dumpFields kw') := by
    rw [dumpFields_map, dumpFields_map]
    exact hp.map _
  have hps : (sortFields (dumpFields kw)).Perm (sortFields (dumpFields kw')) :=
    ((List.perm_insertionSort keyLe _).trans hperm).trans
      (List.perm_insertionSort keyLe _).symm
  have hkeys : (dumpFields kw).map Prod.fst = kw.map Prod.fst := by
    rw [dumpFields_map, List.map_map]
    rfl
  have hnd1 : ((sortFields (dumpFields kw)).map Prod.fst).Nodup := by
    have hmp : ((sortFields (dumpFields kw)).map Prod.fst).Perm
        ((dumpFields kw).map Prod.fst) :=
      (List.perm_insertionSort keyLe _).map _
    rw [hmp.nodup_iff, hkeys]
    exact hnd
  have heq := sorted_keyLe_nodup_eq _ _ hps
    (List.sorted_insertionSort keyLe _) (List.sorted_insertionSort keyLe _)
    hnd1
  show "\x7b" ++ joinMembers (sortFields (dumpFields kw)) ++ "\x7d" =
    "\x7b" ++ joinMembers (sortFields (dumpFields kw')) ++ "\x7d"
  rw [heq]

lemma dumpItems_cons_of_ne_nil (x : PyVal) (l : List PyVal) (h : l ≠ []) :
    dumpItems (x :: l) = jsonDumpsPy x ++ ", " ++ dumpItems l := by
  cases l with
  | nil => exact absurd rfl h
  | cons y ys => rfl

lemma dumpItems_single_ne :
    ∀ (pre : List PyVal) (a a' : PyVal) (post : List PyVal),
      jsonDumpsPy a ≠ jsonDumpsPy a' →
      dumpItems (pre ++ a :: post) ≠ dumpItems (pre ++ a' :: post) := by
  intro pre
  induction pre with
  | nil =>
      intro a a' post hne h
      cases post with
      | nil => exact hne h
      | cons p ps =>
          rw [List.nil_append, List.nil_append,
            dumpItems_cons_of_ne_nil a _ (by simp),
            dumpItems_cons_of_ne_nil a' _ (by simp)] at h
          exact hne (str_app_right_cancel (str_app_right_cancel h))
  | cons p ps ih =>
      intro a a' post hne h
      rw [List.cons_append, List.cons_append,
        dumpItems_cons_of_ne_nil p _ (by simp),
        dumpItems_cons_of_ne_nil p _ (by simp)] at h
      exact ih a a' post hne (str_app_left_cancel h)

lemma tupleDump_single_ne (pre : List PyVal) (a a' : PyVal)
    (post : List PyVal) (hne : jsonDumpsPy a ≠ jsonDumpsPy a') :
    jsonDumpsPy (.tuple (pre ++ a :: post)) ≠
      jsonDumpsPy (.tuple (pre ++ a' :: post)) := by
  intro h
  have h' : "[" ++ dumpItems (pre ++ a :: post) ++ "]" =
      "[" ++ dumpItems (pre ++ a' :: post) ++ "]" := h
  exact dumpItems_single_ne pre a a' post hne
    (str_app_left_cancel (str_app_right_cancel h'))

/-- A tag is plain when absent or a plain printable string. -/
def tagPlain : Option String → Bool
  | Option.none => true
  | some s => plainStr s

lemma tagDump_inj : ∀ {t t' : Option String}, tagPlain t = true →
    tagPlain t' = true →
    jsonDumpsPy (pyNoneOr t) = jsonDumpsPy (pyNoneOr t') → t = t' := by
  have hcase : ∀ s' : String, ("null" : String) ≠ dumpStr s' := by
    intro s' h
    have hd := congrArg String.data h
    have h1 : ("null" : String).data = ['n', 'u', 'l', 'l'] := rfl
    rw [h1] at hd
    unfold dumpStr at hd
    simp only [List.cons.injEq] at hd
    exact absurd hd.1 (by decide)
  intro t t' h h' he
  cases t with
  | none =>
      cases t' with
      | none => rfl
      | some s' => exact absurd he (hcase s')
  | some s =>
      cases t' with
      | none => exact absurd he.symm (hcase s)
      | some s' => exact congrArg some (dumpStr_inj_plain h h' he)

/--
C7 (amended).  For the default key derivation, settled on the serialized
payload the code hashes (SHA-256 treated as collision-free): reordering
keyword arguments (distinct names) alone leaves the key unchanged;
changing the version string or the tag (over plain printable strings)
changes the key; and changing one positional argument changes the key
whenever the two argument values have different JSON serializations —
but not otherwise: distinct Python values with identical serializations
(such as the list `[1]` and the tuple `(1,)`) collide.
-/
theorem defaultKey_sensitivity (funcId version version' : String)
    (tag tag' : Option String) (args : List PyVal)
    (kwargs kwargs' : List (String × PyVal)) (pre post : List PyVal)
    (a a' : PyVal) :
    ((kwargs.map Prod.fst).Nodup → kwargs.Perm kwargs' →
      defaultKeyText funcId args kwargs version tag =
        defaultKeyText funcId args kwargs' version tag) ∧
    (plainStr version = true → plainStr version' = true →
      version ≠ version' →
      defaultKeyText funcId args kwargs version tag ≠
        defaultKeyText funcId args kwargs version' tag) ∧
    (tagPlain tag = true → tagPlain tag' = true → tag ≠ tag' →
      defaultKeyText funcId args kwargs version tag ≠
        defaultKeyText funcId args kwargs version tag') ∧
    (jsonDumpsPy a ≠ jsonDumpsPy a' →
      defaultKeyText funcId (pre ++ a :: post) kwargs version tag ≠
        defaultKeyText funcId (pre ++ a' :: post) kwargs version tag) := by
  refine ⟨fun hnd hp => ?_, fun hv hv' hne h => ?_, fun ht ht' hne h => ?_,
    fun hne h => ?_⟩
  · rw [defaultKeyText_shape, defaultKeyText_shape,
      jsonDumpsPy_dict_perm kwargs kwargs' hnd hp]
  · rw [defaultKeyText_shape, defaultKeyText_shape] at h
    exact hne (dumpStr_inj_plain hv hv' (mkPayloadText_v_inj h))
  · rw [defaultKeyText_shape, defaultKeyText_shape] at h
    exact hne (tagDump_inj ht ht' (mkPayloadText_tag_inj h))
  · rw [defaultKeyText_shape, defaultKeyText_shape] at h
    exact tupleDump_single_ne pre a a' post hne (mkPayloadText_args_inj h)

/-- Witness for C7 (amended): concrete kwargs reordering, version, tag
and single-argument changes. -/
theorem defaultKey_sensitivity_witness :
    (([("a", PyVal.int 1), ("b", PyVal.int 2)].map Prod.fst).Nodup ∧
      List.Perm [("a", PyVal.int 1), ("b", PyVal.int 2)]
        [("b", PyVal.int 2), ("a", PyVal.int 1)] ∧
      plainStr "1" = true ∧ plainStr "2" = true ∧ ("1" : String) ≠ "2" ∧
      tagPlain Option.none = true ∧ tagPlain (some "x") = true ∧
      (Option.none : Option String) ≠ some "x" ∧
      jsonDumpsPy (PyVal.str "p") ≠ jsonDumpsPy (PyVal.str "q")) ∧
    defaultKeyText "m.f" [] [("a", PyVal.int 1), ("b", PyVal.int 2)] "1"
        Option.none =
      defaultKeyText "m.f" [] [("b", PyVal.int 2), ("a", PyVal.int 1)] "1"
        Option.none ∧
    defaultKeyText "m.f" [] [] "1" Option.none ≠
      defaultKeyText "m.f" [] [] "2" Option.none ∧
    defaultKeyText "m.f" [] [] "1" Option.none ≠
      defaultKeyText "m.f" [] [] "1" (some "x") ∧
    defaultKeyText "m.f" ([] ++ PyVal.str "p" :: []) [] "1" Option.none ≠
      defaultKeyText "m.f" ([] ++ PyVal.str "q" :: []) [] "1" Option.none := by
  refine ⟨⟨by decide, List.Perm.swap _ _ _, by decide, by decide, by decide,
    rfl, by decide, fun h => Option.noConfusion h, by decide⟩, ?_, ?_, ?_, ?_⟩
  · exact (defaultKey_sensitivity "m.f" "1" "2" Option.none (some "x") []
      [("a", PyVal.int 1), ("b", PyVal.int 2)]
      [("b", PyVal.int 2), ("a", PyVal.int 1)] [] [] (PyVal.str "p")
      (PyVal.str "q")).1 (by decide) (List.Perm.swap _ _ _)
  · exact (defaultKey_sensitivity "m.f" "1" "2" Option.none (some "x") [] []
      [] [] [] (PyVal.str "p") (PyVal.str "q")).2.1 (by decide) (by decide)
      (by decide)
  · exact (defaultKey_sensitivity "m.f" "1" "2" Option.none (some "x") [] []
      [] [] [] (PyVal.str "p") (PyVal.str "q")).2.2.1 rfl (by decide)
      (fun h => Option.noConfusion h)
  · exact (defaultKey_sensitivity "m.f" "1" "2" Option.none (some "x") [] []
      [] [] [] (PyVal.str "p") (PyVal.str "q")).2.2.2 (by decide)

/--
C7 counterexample.  Changing the single positional argument from the
list `[1]` to the tuple `(1,)` — two distinct Python values — leaves
the derived key unchanged, because `json.dumps` serializes lists and
tuples identically, so "changing any single argument yields a different
derived key" is false.
-/
theorem defaultKey_list_tuple_collision :
    PyVal.list [PyVal.int 1] ≠ PyVal.tuple [PyVal.int 1] ∧
    defaultKeyText "m.f" [PyVal.list [PyVal.int 1]] [] "1" Option.none =
      defaultKeyText "m.f" [PyVal.tuple [PyVal.int 1]] [] "1" Option.none :=
  ⟨fun h => PyVal.noConfusion h, rfl⟩

/-!
## The `tool_cache` wrapper

The wrapper pops the reserved per-call kwargs (`_cache_dir`,
`_offline_only`, `_cache_expire_override`), resolves the directory,
obtains the singleton store, derives the key, and then: on hit returns
the stored value; on miss with offline-only in effect raises `KeyError`;
otherwise computes, persists with a fallback chain, and returns the
computed result.  The store is an association list (`cache.set`
overwrites by shadowing); store failures are driven by an explicit
oracle: `lookupRaises` stands for any exception from `key in cache` or
`cache[key]`, and `setFailsN` for an exception from the N-th
`cache.set` attempt.
-/

mutual

/-- Python `repr`, to the extent the modelled values need it (string
quoting without escapes; tuples with Python's singleton trailing
comma).  Only its role as the last-resort serialization matters. -/
def pyRepr : PyVal → String
  | .none => "None"
  | .bool b => if b then "True" else "False"
  | .int n => toString n
  | .str s => "'" ++ s ++ "'"
  | .list xs => "[" ++ reprItems xs ++ "]"
  | .tuple [] => "()"
  | .tuple [x] => "(" ++ pyRepr x ++ ",)"
  | .tuple xs => "(" ++ reprItems xs ++ ")"
  | .dict fs => "\x7b" ++ reprFields fs ++ "\x7d"
  | .obj s => s

def reprItems : List PyVal → String
  | [] => ""
  | [x] => pyRepr x
  | x :: xs => pyRepr x ++ ", " ++ reprItems xs

def reprFields : List (String × PyVal) → String
  | [] => ""
  | [(k, v)] => "'" ++ k ++ "': " ++ pyRepr v
  | (k, v) :: rest => "'" ++ k ++ "': " ++ pyRepr v ++ ", " ++ reprFields rest

end

/-- Python `str(v)`: the string itself for strings, `repr` otherwise. -/
def pyStr : PyVal → String
  | .str s => s
  | v => pyRepr v

mutual

/-- `json.loads(json.dumps(v, default=str))`: the JSON-normalizing
persistence fallback.  Tuples come back as lists, arbitrary objects as
their `str()`; this `json.dumps` call does not sort keys, so dict
member order is preserved. -/
def jsonRoundTrip : PyVal → PyVal
  | .none => .none
  | .bool b => .bool b
  | .int n => .int n
  | .str s => .str s
  | .list xs => .list (jsonRoundTripList xs)
  | .tuple xs => .list (jsonRoundTripList xs)
  | .dict fs => .dict (jsonRoundTripFields fs)
  | .obj s => .str s

def jsonRoundTripList : List PyVal → List PyVal
  | [] => []
  | x :: xs => jsonRoundTrip x :: jsonRoundTripList xs

def jsonRoundTripFields : List (String × PyVal) → List (String × PyVal)
  | [] => []
  | (k, v) :: rest => (k, jsonRoundTrip v) :: jsonRoundTripFields rest

end

/-- The disk store for one directory: an association list of cache
entries; `set` shadows any previous entry for the key. -/
abbrev Store := List (String × PyVal)

def storeGet (s : Store) (k : String) : Option PyVal :=
  (s.find? (fun p => p.1 = k)).map Prod.snd

def storeSet (s : Store) (k : String) (v : PyVal) : Store := (k, v) :: s

/-- Store-failure oracle for one wrapped call. -/
structure Eff where
  lookupRaises : Bool
  setFails1 : Bool
  setFails2 : Bool
  setFails3 : Bool

inductive CallResult where
  | ok (v : PyVal)
  | exn (msg : String)

structure CallOut where
  result : CallResult
  store : Store
  fCalls : ℕ

/-- The `KeyError` message raised on a miss in offline-only mode:
`f"Cache miss in offline_only mode for key={key[:10]}… (cache={cache_dir})."` -/
def offlineMissMsg (key : String) (cacheDir : String) : String :=
  "Cache miss in offline_only mode for key=" ++ (key.take 10) ++
    "… (cache=" ++ cacheDir ++ ")."

/--
One call through the `tool_cache` wrapper after the reserved kwargs have
been popped: `args`/`kwargs` are the remaining arguments passed to the
key function and to `f`; `callOffline` is the popped `_offline_only`
(`none` when absent), `offlineOnlyCfg` the decorator argument.  `fCalls`
counts invocations of the wrapped `f` during this call.  The third
`cache.set` attempt is not guarded by any handler: when it too fails,
the exception escapes the call.
-/
def wrapperCall (f : List PyVal → List (String × PyVal) → PyVal)
    (keyOf : List PyVal → List (String × PyVal) → String)
    (offlineOnlyCfg : Bool) (cacheDir : String)
    (args : List PyVal) (kwargs : List (String × PyVal))
    (callOffline : Option Bool) (eff : Eff) (store : Store) : CallOut :=
  let key := keyOf args kwargs
  -- `try: if key in cache: return cache[key]  except Exception: pass`
  let hit : Option PyVal :=
    if eff.lookupRaises then Option.none else storeGet store key
  match hit with
  | some v => ⟨.ok v, store, 0⟩
  | Option.none =>
    let oo := callOffline.getD offlineOnlyCfg
    if oo then ⟨.exn (offlineMissMsg key cacheDir), store, 0⟩
    else
      let result := f args kwargs
      if eff.setFails1 = false then
        ⟨.ok result, storeSet store key result, 1⟩
      else if eff.setFails2 = false then
        ⟨.ok result, storeSet store key (jsonRoundTrip result), 1⟩
      else if eff.setFails3 = false then
        ⟨.ok result, storeSet store key (.str (pyStr result)), 1⟩
      else ⟨.exn "cache set failed", store, 1⟩

/-- The all-operations-succeed oracle: a working store. -/
def effOk : Eff := ⟨false, false, false, false⟩

lemma storeGet_storeSet (s : Store) (k : String) (v : PyVal) :
    storeGet (storeSet s k v) k = some v := by
  simp [storeGet, storeSet, List.find?]

/--
C2.  Calling a cache-decorated pure function twice with identical
non-reserved arguments, against a working store (`effOk`, no expiry in
the store model) with the derived key initially absent: the first call
computes and persists, the second hits; the wrapped `f` runs exactly
once over the two calls, both calls return the computed value, and the
second (hit) call performs zero invocations of `f`.
-/
theorem cache_hit_second_call
    (f : List PyVal → List (String × PyVal) → PyVal)
    (keyOf : List PyVal → List (String × PyVal) → String)
    (dir : String) (args : List PyVal) (kwargs : List (String × PyVal))
    (store : Store)
    (hmiss : storeGet store (keyOf args kwargs) = Option.none) :
    (wrapperCall f keyOf false dir args kwargs Option.none effOk
        store).fCalls = 1 ∧
    (wrapperCall f keyOf false dir args kwargs Option.none effOk
        store).result = .ok (f args kwargs) ∧
    (wrapperCall f keyOf false dir args kwargs Option.none effOk
        (wrapperCall f keyOf false dir args kwargs Option.none effOk
          store).store).fCalls = 0 ∧
    (wrapperCall f keyOf false dir args kwargs Option.none effOk
        (wrapperCall f keyOf false dir args kwargs Option.none effOk
          store).store).result = .ok (f args kwargs) := by
  simp [wrapperCall, effOk, hmiss, storeGet_storeSet]

/-- Witness for C2: `f ≡ 10` cached under key `"K"` in an empty store. -/
theorem cache_hit_second_call_witness :
    storeGet [] ((fun _ _ => "K") ([] : List PyVal)
        ([] : List (String × PyVal))) = Option.none ∧
    ((wrapperCall (fun _ _ => PyVal.int 10) (fun _ _ => "K") false "d" []
        [] Option.none effOk []).fCalls = 1 ∧
    (wrapperCall (fun _ _ => PyVal.int 10) (fun _ _ => "K") false "d" []
        [] Option.none effOk []).result = .ok (PyVal.int 10) ∧
    (wrapperCall (fun _ _ => PyVal.int 10) (fun _ _ => "K") false "d" []
        [] Option.none effOk
        (wrapperCall (fun _ _ => PyVal.int 10) (fun _ _ => "K") false "d"
          [] [] Option.none effOk []).store).fCalls = 0 ∧
    (wrapperCall (fun _ _ => PyVal.int 10) (fun _ _ => "K") false "d" []
        [] Option.none effOk
        (wrapperCall (fun _ _ => PyVal.int 10) (fun _ _ => "K") false "d"
          [] [] Option.none effOk []).store).result = .ok (PyVal.int 10)) :=
  ⟨rfl, cache_hit_second_call (fun _ _ => PyVal.int 10) (fun _ _ => "K")
    "d" [] [] [] rfl⟩

/--
C6.  On a miss (key absent from the store) with offline-only in effect —
by per-call override or decorator configuration — the call fails with
the `KeyError` whose message carries the first ten characters of the
derived key and the resolved cache directory, and the wrapped `f` is
invoked zero times.
-/
theorem offline_miss_raises
    (f : List PyVal → List (String × PyVal) → PyVal)
    (keyOf : List PyVal → List (String × PyVal) → String)
    (offlineOnlyCfg : Bool) (dir : String) (args : List PyVal)
    (kwargs : List (String × PyVal)) (callOffline : Option Bool)
    (eff : Eff) (store : Store)
    (hoo : callOffline.getD offlineOnlyCfg = true)
    (hmiss : storeGet store (keyOf args kwargs) = Option.none) :
    (wrapperCall f keyOf offlineOnlyCfg dir args kwargs callOffline eff
        store).fCalls = 0 ∧
    (wrapperCall f keyOf offlineOnlyCfg dir args kwargs callOffline eff
        store).result =
      .exn ("Cache miss in offline_only mode for key=" ++
        ((keyOf args kwargs).take 10) ++ "… (cache=" ++ dir ++ ").") := by
  simp [wrapperCall, hoo, hmiss, offlineMissMsg]

/-- Witness for C6 at an empty store with forced `_offline_only=True`. -/
theorem offline_miss_raises_witness :
    (some true).getD false = true ∧
    storeGet [] "0123456789AB" = Option.none ∧
    ((wrapperCall (fun _ _ => PyVal.int 7) (fun _ _ => "0123456789AB")
        false "/tmp/c" [] [] (some true) effOk []).fCalls = 0 ∧
    (wrapperCall (fun _ _ => PyVal.int 7) (fun _ _ => "0123456789AB")
        false "/tmp/c" [] [] (some true) effOk []).result =
      .exn ("Cache miss in offline_only mode for key=" ++
        (("0123456789AB" : String).take 10) ++ "… (cache=" ++ "/tmp/c"
          ++ ").")) :=
  ⟨rfl, rfl, offline_miss_raises (fun _ _ => PyVal.int 7)
    (fun _ _ => "0123456789AB") false "/tmp/c" [] [] (some true) effOk []
    rfl rfl⟩

/--
C10.  If the store lookup (`key in cache` / `cache[key]`) raises, the
wrapper swallows the exception and treats the call as a miss, whatever
the store holds: with offline-only not in effect and a write-capable
store, `f` is invoked exactly once and its result is returned.
-/
theorem cache_lookup_exception_swallowed
    (f : List PyVal → List (String × PyVal) → PyVal)
    (keyOf : List PyVal → List (String × PyVal) → String)
    (offlineOnlyCfg : Bool) (dir : String) (args : List PyVal)
    (kwargs : List (String × PyVal)) (callOffline : Option Bool)
    (store : Store) (s2 s3 : Bool)
    (hoo : callOffline.getD offlineOnlyCfg = false) :
    (wrapperCall f keyOf offlineOnlyCfg dir args kwargs callOffline
        ⟨true, false, s2, s3⟩ store).fCalls = 1 ∧
    (wrapperCall f keyOf offlineOnlyCfg dir args kwargs callOffline
        ⟨true, false, s2, s3⟩ store).result = .ok (f args kwargs) := by
  simp [wrapperCall, hoo]

/-- Witness for C10: the key is present in the store with a stale value
`99`, yet the raising lookup is swallowed and `f` recomputes `7`. -/
theorem cache_lookup_exception_swallowed_witness :
    (Option.none : Option Bool).getD false = false ∧
    ((wrapperCall (fun _ _ => PyVal.int 7) (fun _ _ => "K") false "d" []
        [] Option.none ⟨true, false, false, false⟩
        [("K", PyVal.int 99)]).fCalls = 1 ∧
    (wrapperCall (fun _ _ => PyVal.int 7) (fun _ _ => "K") false "d" []
        [] Option.none ⟨true, false, false, false⟩
        [("K", PyVal.int 99)]).result = .ok (PyVal.int 7)) :=
  ⟨rfl, cache_lookup_exception_swallowed (fun _ _ => PyVal.int 7)
    (fun _ _ => "K") false "d" [] [] Option.none [("K", PyVal.int 99)]
    false false rfl⟩

/--
C4 (amended).  On a computing miss, persistence tries `cache.set` with
the raw result, then with its JSON-normalized form, then with its plain
`str()` text; the computed result is returned whenever **any** of the
three attempts succeeds.  But the final plain-text attempt is not
guarded: when all three attempts fail, the exception escapes and the
call fails instead of returning the computed result.
-/
theorem cache_set_fallback
    (f : List PyVal → List (String × PyVal) → PyVal)
    (keyOf : List PyVal → List (String × PyVal) → String)
    (dir : String) (args : List PyVal) (kwargs : List (String × PyVal))
    (store : Store) (s1 s2 s3 : Bool)
    (hmiss : storeGet store (keyOf args kwargs) = Option.none) :
    (wrapperCall f keyOf false dir args kwargs Option.none
        ⟨false, s1, s2, s3⟩ store).fCalls = 1 ∧
    (s1 = false →
      (wrapperCall f keyOf false dir args kwargs Option.none
          ⟨false, s1, s2, s3⟩ store).result = .ok (f args kwargs) ∧
      storeGet (wrapperCall f keyOf false dir args kwargs Option.none
          ⟨false, s1, s2, s3⟩ store).store (keyOf args kwargs) =
        some (f args kwargs)) ∧
    (s1 = true → s2 = false →
      (wrapperCall f keyOf false dir args kwargs Option.none
          ⟨false, s1, s2, s3⟩ store).result = .ok (f args kwargs) ∧
      storeGet (wrapperCall f keyOf false dir args kwargs Option.none
          ⟨false, s1, s2, s3⟩ store).store (keyOf args kwargs) =
        some (jsonRoundTrip (f args kwargs))) ∧
    (s1 = true → s2 = true → s3 = false →
      (wrapperCall f keyOf false dir args kwargs Option.none
          ⟨false, s1, s2, s3⟩ store).result = .ok (f args kwargs) ∧
      storeGet (wrapperCall f keyOf false dir args kwargs Option.none
          ⟨false, s1, s2, s3⟩ store).store (keyOf args kwargs) =
        some (.str (pyStr (f args kwargs)))) ∧
    (s1 = true → s2 = true → s3 = true →
      (wrapperCall f keyOf false dir args kwargs Option.none
          ⟨false, s1, s2, s3⟩ store).result = .exn "cache set failed") := by
  cases s1 <;> cases s2 <;> cases s3 <;>
    simp [wrapperCall, hmiss, storeGet_storeSet]

/-- Witness for C4 (amended): the first two attempts fail and the
plain-text fallback persists `str(("p",))` while the call still
returns the computed tuple. -/
theorem cache_set_fallback_witness :
    storeGet [] "K" = Option.none ∧
    ((wrapperCall (fun _ _ => PyVal.tuple [PyVal.str "p"])
        (fun _ _ => "K") false "d" [] [] Option.none
        ⟨false, true, true, false⟩ []).fCalls = 1 ∧
    (wrapperCall (fun _ _ => PyVal.tuple [PyVal.str "p"]) (fun _ _ => "K")
        false "d" [] [] Option.none ⟨false, true, true, false⟩
        []).result = .ok (PyVal.tuple [PyVal.str "p"]) ∧
    storeGet (wrapperCall (fun _ _ => PyVal.tuple [PyVal.str "p"])
        (fun _ _ => "K") false "d" [] [] Option.none
        ⟨false, true, true, false⟩ []).store "K" =
      some (PyVal.str "('p',)")) := by
  have h := cache_set_fallback (fun _ _ => PyVal.tuple [PyVal.str "p"])
    (fun _ _ => "K") "d" [] [] [] true true false rfl
  have h3 := h.2.2.2.1 rfl rfl rfl
  exact ⟨rfl, h.1, h3.1, by rw [h3.2]; rfl⟩

/--
C4 counterexample.  When all three persistence attempts fail, the call
raises instead of returning the computed result: the final plain-text
`cache.set` is not wrapped in any handler, so "the computed result is
still returned to the caller whenever all persistence attempts fail" is
false.
-/
theorem cache_set_total_failure_raises :
    (wrapperCall (fun _ _ => PyVal.int 7) (fun _ _ => "K") false "/cache"
        [] [] Option.none ⟨false, true, true, true⟩ []).result =
      CallResult.exn "cache set failed" ∧
    (wrapperCall (fun _ _ => PyVal.int 7) (fun _ _ => "K") false "/cache"
        [] [] Option.none ⟨false, true, true, true⟩ []).result ≠
      CallResult.ok (PyVal.int 7) :=
  ⟨rfl, fun h => CallResult.noConfusion h⟩

/-!
## Configuration resolution (size limit and TTL)

`_resolve_global_size_limit` and `_resolve_global_expire` each walk
decorator argument > process-wide global default > environment variable
> hardcoded default.  The TTL additionally has a per-call level: the
wrapper pops `_cache_expire_override` and uses it when present
(`ttl = effective_expire if call_expire is None else call_expire`).
The wrapper pops no per-call size-limit kwarg: only `size_limit_bytes`
from the decorator reaches `_get_cache`.  Environment variables are
modelled post-parse (`none` for unset or unparsable values).
-/

def sysMaxsize : ℤ := 2 ^ 63 - 1

/-- `_resolve_global_size_limit(default_from_decorator)`. -/
def resolveSizeLimitCode (dec glob env : Option ℤ) : ℤ :=
  match dec with
  | some d => d
  | Option.none =>
    match glob with
    | some g => g
    | Option.none =>
      match env with
      | some e => e
      | Option.none => sysMaxsize

/-- `_resolve_global_expire(default_from_decorator)`; `none` = never expire. -/
def resolveExpireCode (dec glob env : Option ℚ) : Option ℚ :=
  match dec with
  | some d => some d
  | Option.none =>
    match glob with
    | some g => some g
    | Option.none =>
      match env with
      | some e => some e
      | Option.none => Option.none

/-- The wrapper's effective TTL including the per-call override. -/
def ttlCode (callOv dec glob env : Option ℚ) : Option ℚ :=
  match callOv with
  | some t => some t
  | Option.none => resolveExpireCode dec glob env

/-- The size limit the wrapper hands to `_get_cache`: there is no
per-call size-limit override among the reserved kwargs the wrapper
pops, so a would-be per-call value `_callOv` never reaches the
resolution. -/
def wrapperSizeLimit (_callOv dec glob env : Option ℤ) : ℤ :=
  resolveSizeLimitCode dec glob env

/-- Modelled from the spec: the five-level chain "per-call override >
decorator argument > process-wide global default > environment variable
> hardcoded default" that the spec asserts for the size limit. -/
def resolveSizeLimitSpec (callOv dec glob env : Option ℤ) : ℤ :=
  match callOv with
  | some c => c
  | Option.none =>
    match dec with
    | some d => d
    | Option.none =>
      match glob with
      | some g => g
      | Option.none =>
        match env with
        | some e => e
        | Option.none => sysMaxsize

/-- Modelled from the spec: the same five-level chain for the TTL, with
the never-expire default. -/
def ttlSpec (callOv dec glob env : Option ℚ) : Option ℚ :=
  match callOv with
  | some c => some c
  | Option.none =>
    match dec with
    | some d => some d
    | Option.none =>
      match glob with
      | some g => some g
      | Option.none =>
        match env with
        | some e => some e
        | Option.none => Option.none

/--
C8 (amended).  The TTL resolves through the full five-level chain
(per-call > decorator > global > environment > never-expire default) and
agrees with the spec's chain everywhere; the size limit has **no**
per-call level and resolves through the remaining four (decorator >
global > environment > `sys.maxsize`), i.e. it agrees with the spec's
chain only when no per-call override is claimed.
-/
theorem config_override_chains (callQ decQ globQ envQ : Option ℚ)
    (callZ decZ globZ envZ : Option ℤ) :
    ttlCode callQ decQ globQ envQ = ttlSpec callQ decQ globQ envQ ∧
    wrapperSizeLimit callZ decZ globZ envZ =
      resolveSizeLimitSpec Option.none decZ globZ envZ ∧
    ttlCode Option.none Option.none Option.none Option.none =
      Option.none ∧
    resolveSizeLimitCode Option.none Option.none Option.none =
      sysMaxsize := by
  refine ⟨?_, rfl, rfl, rfl⟩
  cases callQ <;> rfl

/--
C8 counterexample.  A per-call size-limit override of `42` (the level
the claim asserts) is ignored by the code: the wrapper's effective size
limit stays at the `sys.maxsize` default instead of `42`, so the size
limit is not resolved through the same five-level chain as the TTL.
-/
theorem sizeLimit_no_call_override :
    resolveSizeLimitSpec (some 42) Option.none Option.none Option.none
      = 42 ∧
    wrapperSizeLimit (some 42) Option.none Option.none Option.none
      = sysMaxsize ∧
    wrapperSizeLimit (some 42) Option.none Option.none Option.none ≠
      resolveSizeLimitSpec (some 42) Option.none Option.none
        Option.none := by
  refine ⟨rfl, rfl, ?_⟩
  show sysMaxsize ≠ 42
  unfold sysMaxsize
  norm_num

/-!
## The cache store registry (`_get_cache`)

`_get_cache` keys `_CACHE_REGISTRY` by `str(directory.resolve())` and
creates a `diskcache.Cache` only when the key is absent.  Store
instances are modelled by natural-number identities allocated from a
counter; the state is the registry association list plus the counter.
-/

abbrev RegState := List (String × ℕ) × ℕ

def regLookup (r : List (String × ℕ)) (k : String) : Option ℕ :=
  (r.find? (fun p => p.1 = k)).map Prod.snd

/-- `_get_cache` on an already-resolved directory string: return the
registered instance, or create and register a fresh one. -/
def regGet (s : RegState) (k : String) : ℕ × RegState :=
  match regLookup s.1 k with
  | some id => (id, s)
  | Option.none => (s.2, ((k, s.2) :: s.1, s.2 + 1))

/-- A process lifetime of `_get_cache` resolutions: the instance
returned for each requested directory, in order. -/
def regRun (s : RegState) : List String → List ℕ × RegState
  | [] => ([], s)
  | k :: ks =>
    let r := regGet s k
    let rest := regRun r.2 ks
    (r.1 :: rest.1, rest.2)

lemma regGet_preserves (s : RegState) (k k' : String) (n : ℕ)
    (h : regLookup s.1 k = some n) :
    regLookup (regGet s k').2.1 k = some n := by
  unfold regGet
  cases hl : regLookup s.1 k' with
  | some id => simpa using h
  | none =>
      by_cases he : k' = k
      · subst he
        rw [h] at hl
        cases hl
      · simp only
        unfold regLookup at h ⊢
        rw [List.find?_cons_of_neg _ (by simpa using he)]
        exact h

lemma regGet_result (s : RegState) (k : String) :
    regLookup (regGet s k).2.1 k = some (regGet s k).1 := by
  unfold regGet
  cases hl : regLookup s.1 k with
  | some id => simpa using hl
  | none =>
      simp only
      unfold regLookup
      rw [List.find?_cons_of_pos _ (by simp)]
      rfl

lemma regRun_preserves (ks : List String) :
    ∀ (s : RegState) (k : String) (n : ℕ), regLookup s.1 k = some n →
      regLookup (regRun s ks).2.1 k = some n := by
  induction ks with
  | nil => intro s k n h; exact h
  | cons k0 rest ih =>
      intro s k n h
      exact ih (regGet s k0).2 k n (regGet_preserves s k k0 n h)

lemma regRun_ids (ks : List String) :
    ∀ (s : RegState) (i : ℕ) (k : String), ks[i]? = some k →
      (regRun s ks).1[i]? = regLookup (regRun s ks).2.1 k := by
  induction ks with
  | nil =>
      intro s i k h
      simp at h
  | cons k0 rest ih =>
      intro s i k h
      cases i with
      | zero =>
          simp only [List.getElem?_cons_zero, Option.some.injEq] at h
          subst h
          simp only [regRun]
          rw [List.getElem?_cons_zero]
          exact (regRun_preserves rest (regGet s k0).2 k0 (regGet s k0).1
            (regGet_result s k0)).symm
      | succ j =>
          simp only [List.getElem?_cons_succ] at h
          simp only [regRun]
          rw [List.getElem?_cons_succ]
          exact ih (regGet s k0).2 j k h

lemma regRun_length (ks : List String) :
    ∀ s : RegState, (regRun s ks).1.length = ks.length := by
  induction ks with
  | nil => intro s; rfl
  | cons k0 rest ih =>
      intro s
      simp only [regRun, List.length_cons]
      rw [ih]

/--
C9.  Within one process lifetime of resolutions starting from the empty
registry, at most one store instance exists per resolved directory:
whenever the `i`-th and `j`-th resolutions name the same resolved
directory, they return the identical store instance (and an instance is
always returned).
-/
theorem registry_singleton_per_dir (ks : List String) (i j : ℕ)
    (k : String) (hik : ks[i]? = some k) (hjk : ks[j]? = some k) :
    (regRun ([], 0) ks).1[i]? = (regRun ([], 0) ks).1[j]? ∧
    (regRun ([], 0) ks).1[i]? ≠ Option.none := by
  have hi := regRun_ids ks ([], 0) i k hik
  have hj := regRun_ids ks ([], 0) j k hjk
  refine ⟨by rw [hi, hj], fun hnone => ?_⟩
  have hlt : i < ks.length := by
    by_cases h : i < ks.length
    · exact h
    · rw [List.getElem?_eq_none (by omega)] at hik
      cases hik
  have hlen := List.getElem?_eq_none_iff.mp hnone
  rw [regRun_length] at hlen
  omega

/-- Witness for C9: three resolutions where the first and third name
the same directory. -/
theorem registry_singleton_per_dir_witness :
    (["a", "b", "a"][0]? = some "a" ∧ ["a", "b", "a"][2]? = some "a") ∧
    ((regRun ([], 0) ["a", "b", "a"]).1[0]? =
      (regRun ([], 0) ["a", "b", "a"]).1[2]? ∧
    (regRun ([], 0) ["a", "b", "a"]).1[0]? ≠ Option.none) :=
  ⟨⟨rfl, rfl⟩, registry_singleton_per_dir ["a", "b", "a"] 0 2 "a" rfl rfl⟩

end ToolCache
